import Mathlib

/-!
# my-bookstore: the fan-out/fan-in search and the paginated listing

A shallow embedding of `main.go`.

* Go strings are modelled by their sequence of runes (code points), `Str`.
* The case tables behind `strings.ToLower` and `strings.ToUpper` belong to the
  Go release, not to the repository: they are a parameter, `CaseTables`, and
  every property is proved for all tables.
* `performSearch` starts goroutines that communicate over two channels. Its
  executions are modelled by an interleaving step function `searchStep`
  over an explicit state of all goroutines, channels and the wait group; a
  schedule (a list of `Action`s) picks the goroutine that moves next.
* Machine integers are `Int` with explicit wrap-around (`wrapInt`).
-/

namespace Bookstore

/-! ## Strings -/

/-- A Go string, as the sequence of its runes (Unicode code points). -/
abbrev Str := List Nat

/-- The runes of a string literal. -/
def str (s : String) : Str := s.data.map Char.toNat

/-- The case tables of Go's `unicode` package, as the two functions
`unicode.ToLower` and `unicode.ToUpper` on one rune. The tables belong to the
Go release (they follow its Unicode version) and not to this repository, so
they are a parameter of the model: the properties below hold for every pair
of tables. -/
structure CaseTables where
  toLower : Nat → Nat
  toUpper : Nat → Nat

/-- Model of `strings.ToLower`: every rune is mapped by `unicode.ToLower`. -/
def stringsToLower (T : CaseTables) (s : Str) : Str := s.map T.toLower

/-- Model of `strings.ToUpper`: every rune is mapped by `unicode.ToUpper`. -/
def stringsToUpper (T : CaseTables) (s : Str) : Str := s.map T.toUpper

/-- The tables have the rows of the ASCII runes: `A`-`Z` and `a`-`z` are
mapped to one another and no other ASCII rune changes. -/
def asciiRows (T : CaseTables) : Prop :=
  ∀ r, r < 0x80 →
    T.toLower r = (if 0x41 ≤ r ∧ r ≤ 0x5A then r + 32 else r) ∧
    T.toUpper r = (if 0x61 ≤ r ∧ r ≤ 0x7A then r - 32 else r)

/-- The tables have the rows that concern the rune U+017F (LATIN SMALL LETTER
LONG S): its upper case is `S`, the lower case of `S` is `s`, and U+017F is
its own lower case. -/
def longSRows (T : CaseTables) : Prop :=
  T.toUpper 0x17F = 0x53 ∧ T.toLower 0x53 = 0x73 ∧ T.toLower 0x17F = 0x17F

/-- The lower-case column of `sampleTables`. -/
def sampleToLower (r : Nat) : Nat :=
  if 0x41 ≤ r ∧ r ≤ 0x5A then r + 32 else r

/-- The upper-case column of `sampleTables`. -/
def sampleToUpper (r : Nat) : Nat :=
  if 0x61 ≤ r ∧ r ≤ 0x7A then r - 32
  else if r = 0x17F then 0x53
  else r

/-- A concrete pair of tables, for running the model on the sample strings: the
rows of the ASCII runes and of U+017F, every other rune unchanged. It is one
input among all tables; no property below is stated for it alone except the
evaluations on sample strings, whose runes are ASCII or U+017F. -/
def sampleTables : CaseTables where
  toLower := sampleToLower
  toUpper := sampleToUpper

/-- Model of `strings.HasPrefix`. -/
def stringsHasPrefix : Str → Str → Bool
  | _, [] => true
  | [], _ :: _ => false
  | a :: s, b :: p => a == b && stringsHasPrefix s p

/-- Model of `strings.Contains s substr`: `substr` occurs in `s` at some
position. -/
def stringsContains : Str → Str → Bool
  | [], substr => stringsHasPrefix [] substr
  | a :: s, substr => stringsHasPrefix (a :: s) substr || stringsContains s substr

/-- A string made of ASCII runes only. -/
def isASCII (s : Str) : Prop := ∀ r ∈ s, r < 0x80

/-! ## Data model -/

/-- The `Book` struct. `Price` (a `float64`) is carried as its IEEE-754 bit
pattern; no handler inspects it. -/
structure Book where
  ID : Str
  BookId : Str
  AuthorId : Str
  PublisherId : Str
  Title : Str
  PublicationDate : Str
  Isbn : Str
  Pages : Int
  Genre : Str
  Description : Str
  Price : Nat
  Quantity : Int
deriving DecidableEq, Repr

/-- The condition of the `if` in `searchWorker`; `query` is already
lower-cased by `performSearch`. -/
def bookMatches (T : CaseTables) (query : Str) (book : Book) : Bool :=
  stringsContains (stringsToLower T book.Title) query ||
    stringsContains (stringsToLower T book.Description) query

/-! ## The goroutines of `performSearch` -/

/-- Control point of one `searchWorker` goroutine. -/
inductive WorkerPC
  /-- At the head of `for book := range books`, about to receive. -/
  | recv
  /-- Blocked at `results <- book` with a matching record. -/
  | send (book : Book)
  /-- The loop has ended and the deferred `wg.Done()` has run. -/
  | done
deriving DecidableEq, Repr

/-- Control point of the goroutine that runs `performSearch` itself. -/
inductive MainPC
  /-- In `for i := 0; i < numWorkers; i++` with loop variable `i`. -/
  | spawn (i : Nat)
  /-- About to start the goroutine that sends the books. -/
  | goSender
  /-- About to start the goroutine that closes the result channel. -/
  | goCloser
  /-- In `for result := range resultChannel`. -/
  | collect
  /-- After `return results`. -/
  | returned
deriving DecidableEq, Repr

/-- Control point of the goroutine that sends the books to `bookChannel`. -/
inductive SenderPC
  /-- Not started yet. -/
  | idle
  /-- In `for _, book := range books`, about to send the record at index `i`
  (or to close the channel when `i` is past the end). -/
  | loop (i : Nat)
  /-- After `close(bookChannel)`. -/
  | finished
deriving DecidableEq, Repr

/-- Control point of the goroutine that closes the result channel. -/
inductive CloserPC
  /-- Not started yet. -/
  | idle
  /-- Blocked in `wg.Wait()`. -/
  | wait
  /-- After `close(resultChannel)`. -/
  | finished
deriving DecidableEq, Repr

/-- The state of one execution of `performSearch`: the control points of all
goroutines, the wait group counter, both channels and the `results` slice.
`sent` and `received` are history variables: the records sent to
`bookChannel` so far, and the receive events (worker index, record) on it. -/
structure State where
  main : MainPC
  workers : List WorkerPC
  sender : SenderPC
  closer : CloserPC
  wg : Int
  bookChannel : List Book
  bookClosed : Bool
  resultClosed : Bool
  results : List Book
  panicked : Bool
  sent : List Book
  received : List (Nat × Book)
deriving DecidableEq, Repr

/-- One scheduling decision: which goroutine takes its next step. The
unbuffered `resultChannel` makes a send and the receive of the collecting loop
one joint step, `handoff`. -/
inductive Action
  /-- The goroutine of `performSearch`: start a goroutine, or leave the
  collecting loop once `resultChannel` is closed. -/
  | main
  /-- The sending goroutine: send the next record or close `bookChannel`. -/
  | sender
  /-- The closing goroutine: `wg.Wait()` returns and `resultChannel` is closed. -/
  | closer
  /-- Worker `i`: receive from `bookChannel` and test the record, or leave the
  loop and run `wg.Done()`. -/
  | worker (i : Nat)
  /-- Worker `i` sends its record on `resultChannel` and the collecting loop
  receives and appends it. -/
  | handoff (i : Nat)
deriving DecidableEq, Repr

/-- The state at the entry of `performSearch`, after the two `make` calls. -/
def initState : State where
  main := .spawn 0
  workers := []
  sender := .idle
  closer := .idle
  wg := 0
  bookChannel := []
  bookClosed := false
  resultClosed := false
  results := []
  panicked := false
  sent := []
  received := []

/-- One step of the goroutine `searchWorker` with index `i`. At the loop head
it receives the next record from `bookChannel` and tests it: a matching record
is to be sent on `results`, any other record leads back to the loop head. When
`bookChannel` is closed and drained the loop ends and the deferred `wg.Done()`
runs. A worker that is to send moves by `Action.handoff`; here it can only
panic, when `resultChannel` is closed. -/
def searchWorker (T : CaseTables) (query : Str) (s : State) (i : Nat) : Option State :=
  match s.workers[i]? with
  | some .recv =>
    match s.bookChannel with
    | book :: rest =>
      some { s with bookChannel := rest, received := s.received ++ [(i, book)],
                    workers := s.workers.set i
                      (if bookMatches T query book then .send book else .recv) }
    | [] =>
      if s.bookClosed then
        some { s with wg := s.wg - 1, workers := s.workers.set i .done,
                      panicked := decide (s.wg - 1 < 0) }
      else none
  | some (.send _) => if s.resultClosed then some { s with panicked := true } else none
  | some .done => none
  | none => none

/-- One step of `performSearch` with `numWorkers` workers over the snapshot
`books` and the lower-cased `query`. `none` means that the chosen goroutine
is blocked or has ended (or that the program has panicked). A send on a
closed channel and a negative wait group counter set `panicked`. -/
def searchStep (T : CaseTables) (numWorkers : Nat) (books : List Book) (query : Str)
    (s : State) : Action → Option State
  | .main =>
    if s.panicked then none else
    match s.main with
    | .spawn i =>
      if i < numWorkers then
        some { s with wg := s.wg + 1, workers := s.workers ++ [.recv], main := .spawn (i + 1) }
      else some { s with main := .goSender }
    | .goSender => some { s with sender := .loop 0, main := .goCloser }
    | .goCloser => some { s with closer := .wait, main := .collect }
    | .collect => if s.resultClosed then some { s with main := .returned } else none
    | .returned => none
  | .sender =>
    if s.panicked then none else
    match s.sender with
    | .idle => none
    | .loop i =>
      match books[i]? with
      | some book =>
        if s.bookClosed then some { s with panicked := true }
        else if s.bookChannel.length < books.length then
          some { s with bookChannel := s.bookChannel ++ [book], sent := s.sent ++ [book],
                        sender := .loop (i + 1) }
        else none
      | none =>
        if s.bookClosed then some { s with panicked := true }
        else some { s with bookClosed := true, sender := .finished }
    | .finished => none
  | .closer =>
    if s.panicked then none else
    match s.closer with
    | .idle => none
    | .wait =>
      if s.wg = 0 then
        if s.resultClosed then some { s with panicked := true }
        else some { s with resultClosed := true, closer := .finished }
      else none
    | .finished => none
  | .worker i => if s.panicked then none else searchWorker T query s i
  | .handoff i =>
    if s.panicked then none else
    match s.workers[i]?, s.main with
    | some (.send book), .collect =>
      if s.resultClosed then none
      else some { s with results := s.results ++ [book], workers := s.workers.set i .recv }
    | _, _ => none

/-- Run a schedule from a state; `none` when some action of the schedule is
not enabled in the state it is chosen in. -/
def runSchedule (T : CaseTables) (numWorkers : Nat) (books : List Book) (query : Str) :
    State → List Action → Option State
  | s, [] => some s
  | s, a :: rest =>
    match searchStep T numWorkers books query s a with
    | some s' => runSchedule T numWorkers books query s' rest
    | none => none

/-- The function `performSearch` with the pool size as a parameter: lower-case
the query, run the goroutines under the schedule `sched`, and return
`results` when the schedule has brought `performSearch` to its `return`. -/
def performSearchWith (T : CaseTables) (numWorkers : Nat) (books : List Book) (query : Str)
    (sched : List Action) : Option (List Book) :=
  match runSchedule T numWorkers books (stringsToLower T query) initState sched with
  | some s => if s.main = .returned then some s.results else none
  | none => none

/-- The function `performSearch`: `numWorkers := 4`. -/
def performSearch (T : CaseTables) (books : List Book) (query : Str) (sched : List Action) :
    Option (List Book) :=
  performSearchWith T 4 books query sched

/-- `performSearch` over the snapshot `books` can return `res`. -/
def PerformSearchReturns (T : CaseTables) (books : List Book) (query : Str)
    (res : List Book) : Prop :=
  ∃ sched, performSearch T books query sched = some res

/-- The sequential search of the specification: one filter of the snapshot by
the match predicate of the lower-cased query. -/
def sequentialSearch (T : CaseTables) (books : List Book) (query : Str) : List Book :=
  books.filter (bookMatches T (stringsToLower T query))

/-- The searches for `q₁` and for `q₂` return the same set: over every
snapshot and whatever the two schedules, the two results hold the same
records. -/
def SameResults (T : CaseTables) (q₁ q₂ : Str) : Prop :=
  ∀ (books res₁ res₂ : List Book),
    PerformSearchReturns T books q₁ res₁ → PerformSearchReturns T books q₂ res₂ →
      ∀ r, r ∈ res₁ ↔ r ∈ res₂

/-- A record with the given title and nothing else. -/
def titledBook (title : Str) : Book where
  ID := []
  BookId := []
  AuthorId := []
  PublisherId := []
  Title := title
  PublicationDate := []
  Isbn := []
  Pages := 0
  Genre := []
  Description := []
  Price := 0
  Quantity := 0

/-! ## The HTTP handlers -/

/-- The body of a JSON response: a `gin.H{"message": ...}` object or an array
of books. -/
inductive Body
  | message (text : Str)
  | books (list : List Book)
deriving DecidableEq, Repr

/-- What a handler writes: the status code and the body. -/
structure Response where
  status : Nat
  body : Body
deriving DecidableEq, Repr

/-- `c.Query(key)`: the value of the parameter, `""` when it is absent. -/
def ginQuery (param : Option Str) : Str := param.getD []

/-- `c.DefaultQuery(key, defaultValue)`: the value of the parameter, the
default when it is absent. -/
def ginDefaultQuery (param : Option Str) (defaultValue : Str) : Str := param.getD defaultValue

/-- The handler `searchBooks`; `q` is the query parameter `q` of the request
and `sched` the schedule under which the goroutines of `performSearch` run.
`none` when `sched` does not take `performSearch` to its `return`. -/
def searchBooks (T : CaseTables) (books : List Book) (q : Option Str) (sched : List Action) :
    Option Response :=
  let query := ginQuery q
  if query = [] then
    some { status := 400, body := Body.message (str "query parameter 'q' is required") }
  else
    match performSearch T books query sched with
    | some results => some { status := 200, body := Body.books results }
    | none => none

/-- The value of a machine `int` (64 bits, two's complement) after wrap-around. -/
def wrapInt (x : Int) : Int := (x + 2 ^ 63) % 2 ^ 64 - 2 ^ 63

/-- The value of a non-empty string of decimal digits. -/
def parseDigits (s : Str) : Option Nat :=
  if s = [] then none
  else s.foldl (fun acc ch => acc.bind fun n =>
    if 0x30 ≤ ch ∧ ch ≤ 0x39 then some (n * 10 + (ch - 0x30)) else none) (some 0)

/-- Model of `strconv.Atoi` for a 64-bit `int`: an optional sign and decimal
digits, with an error (`none`) on other syntax and on values out of range. -/
def strconvAtoi (s : Str) : Option Int :=
  match s with
  | 0x2D :: rest =>
    (parseDigits rest).bind fun n => if n ≤ 2 ^ 63 then some (-(n : Int)) else none
  | 0x2B :: rest =>
    (parseDigits rest).bind fun n => if n < 2 ^ 63 then some (n : Int) else none
  | _ => (parseDigits s).bind fun n => if n < 2 ^ 63 then some (n : Int) else none

deriving instance DecidableEq for Except

/-- The function `parsePagination` on the parameters `limit` and `offset` of
the request: `(limit, offset)` or the error message. -/
def parsePagination (limitParam offsetParam : Option Str) : Except Str (Int × Int) :=
  let limitStr := ginDefaultQuery limitParam (str "10")
  let offsetStr := ginDefaultQuery offsetParam (str "0")
  match strconvAtoi limitStr with
  | none => .error (str "invalid limit")
  | some limit =>
    if limit < 1 then .error (str "invalid limit")
    else
      match strconvAtoi offsetStr with
      | none => .error (str "invalid offset")
      | some offset =>
        if offset < 0 then .error (str "invalid offset")
        else .ok (limit, offset)

/-- The values of `start` and `end` in `getBooks` at the slice expression, for
a list of `len` books. -/
def pageBounds (len : Nat) (limit offset : Int) : Int × Int :=
  let start := offset
  let stop := wrapInt (offset + limit)
  let start := if start > (len : Int) then (len : Int) else start
  let stop := if stop > (len : Int) then (len : Int) else stop
  (start, stop)

/-- The slice expression `books[low:high]`: `none` is the run-time panic for
bounds that are not `0 <= low <= high <= len(books)`. (Go compares `high` with
the capacity; in `getBooks` it is at most the length.) -/
def sliceBooks (books : List Book) (low high : Int) : Option (List Book) :=
  if 0 ≤ low ∧ low ≤ high ∧ high ≤ (books.length : Int) then
    some ((books.take high.toNat).drop low.toNat)
  else none

/-- The handler `getBooks` on the parameters `limit` and `offset` of the
request; `none` when the handler panics. -/
def getBooks (books : List Book) (limitParam offsetParam : Option Str) : Option Response :=
  match parsePagination limitParam offsetParam with
  | .error message => some { status := 400, body := Body.message message }
  | .ok (limit, offset) =>
    let bounds := pageBounds books.length limit offset
    match sliceBooks books bounds.1 bounds.2 with
    | some paginatedBooks => some { status := 200, body := Body.books paginatedBooks }
    | none => none

/-! ## Invariants of the goroutine model -/

/-- A worker that has not yet run `wg.Done()`. -/
def WorkerPC.live : WorkerPC → Bool
  | .done => false
  | _ => true

/-- The record a worker is blocked sending, when there is one. -/
def WorkerPC.pending : WorkerPC → Option Book
  | .send book => some book
  | _ => none

/-- What the control point of `performSearch` tells about the started goroutines. -/
def mainPhase (n : Nat) (s : State) : MainPC → Prop
  | .spawn i => s.workers.length = i ∧ i ≤ n ∧ s.sender = .idle ∧ s.closer = .idle
  | .goSender => s.workers.length = n ∧ s.sender = .idle ∧ s.closer = .idle
  | .goCloser => s.workers.length = n ∧ s.sender ≠ .idle ∧ s.closer = .idle
  | .collect => s.workers.length = n ∧ s.sender ≠ .idle ∧ s.closer ≠ .idle
  | .returned => s.workers.length = n ∧ s.sender ≠ .idle ∧ s.closer ≠ .idle ∧
      s.resultClosed = true

/-- What the control point of the sending goroutine tells about `bookChannel`. -/
def senderPhase (books : List Book) (s : State) : SenderPC → Prop
  | .idle => s.sent = [] ∧ s.bookClosed = false
  | .loop i => s.sent = books.take i ∧ i ≤ books.length ∧ s.bookClosed = false
  | .finished => s.sent = books ∧ s.bookClosed = true

/-- What the control point of the closing goroutine tells about `resultChannel`. -/
def closerPhase (s : State) : CloserPC → Prop
  | .idle => s.resultClosed = false
  | .wait => s.resultClosed = false
  | .finished => s.resultClosed = true ∧ s.wg = 0

/-- The invariant of every reachable state of `performSearch`. -/
structure Inv (T : CaseTables) (n : Nat) (books : List Book) (query : Str) (s : State) :
    Prop where
  noPanic : s.panicked = false
  wgCount : s.wg = ((s.workers.countP WorkerPC.live : Nat) : Int)
  mainOK : mainPhase n s s.main
  senderOK : senderPhase books s s.sender
  closerOK : closerPhase s s.closer
  fifo : s.received.map Prod.snd ++ s.bookChannel = s.sent
  conserve : (s.results ++ s.workers.filterMap WorkerPC.pending).Perm
    ((s.received.map Prod.snd).filter (bookMatches T query))
  doneAfter : WorkerPC.done ∈ s.workers → s.bookClosed = true ∧ s.bookChannel = []

/-! ## A variant for termination -/

/-- Steps the goroutine of `performSearch` can still take; a goroutine that is
not started yet is counted here: two units for every worker, `3 * len + 1` for
the sending goroutine and one for the closing goroutine. -/
def MainPC.rank (n len : Nat) : MainPC → Nat
  | .spawn i => 2 * (n - i) + 3 * len + 6
  | .goSender => 3 * len + 5
  | .goCloser => 3
  | .collect => 1
  | .returned => 0

/-- Three units for every record still to be sent, one for the `close`. -/
def SenderPC.rank (len : Nat) : SenderPC → Nat
  | .idle => 0
  | .loop i => 3 * (len - i) + 1
  | .finished => 0

/-- One unit until `resultChannel` is closed. -/
def CloserPC.rank : CloserPC → Nat
  | .idle => 0
  | .wait => 1
  | .finished => 0

/-- A blocked send costs one more step than a worker at its loop head. -/
def WorkerPC.rank : WorkerPC → Nat
  | .recv => 1
  | .send _ => 2
  | .done => 0

/-- The variant: it decreases with every step of every goroutine. -/
def variant (n : Nat) (books : List Book) (s : State) : Nat :=
  s.main.rank n books.length + s.sender.rank books.length + s.closer.rank +
    2 * s.bookChannel.length + (s.workers.map WorkerPC.rank).sum +
    (if s.panicked then 0 else 1)

/-! ## Sample data of `TestGetBooks` -/

/-- First record of the test data. -/
def testBook1 : Book where
  ID := str "1"
  BookId := []
  AuthorId := []
  PublisherId := []
  Title := str "Test Book 1"
  PublicationDate := []
  Isbn := []
  Pages := 0
  Genre := []
  Description := str "A test book description 1"
  Price := 0x4023FAE147AE147B
  Quantity := 10

/-- Second record of the test data. -/
def testBook2 : Book where
  ID := str "2"
  BookId := []
  AuthorId := []
  PublisherId := []
  Title := str "Test Book 2"
  PublicationDate := []
  Isbn := []
  Pages := 0
  Genre := []
  Description := str "A test book description 2"
  Price := 0x4029FAE147AE147B
  Quantity := 5

/-- The list `books` set up by `TestGetBooks`. -/
def testBooks : List Book := [testBook1, testBook2]

/-- A record whose title is the single rune U+017F (LATIN SMALL LETTER LONG S). -/
def longSBook : Book where
  ID := str "3"
  BookId := []
  AuthorId := []
  PublisherId := []
  Title := [0x17F]
  PublicationDate := []
  Isbn := []
  Pages := 0
  Genre := []
  Description := []
  Price := 0
  Quantity := 0

/-! ## Schedules for the sample data -/

/-- The steps of `performSearch` that start the `n` workers and the two other
goroutines. -/
def startup (n : Nat) : List Action := List.replicate (n + 3) Action.main

/-- All `n` workers leave their loop, the result channel is closed and
`performSearch` returns. -/
def shutdown (n : Nat) : List Action :=
  (List.range n).map Action.worker ++ [Action.closer, Action.main]

/-- A schedule for two records: both are sent, worker 0 receives the first and
hands it over if it matches, worker 1 receives the second and hands it over
if it matches. `first` and `second` tell whether the records match. -/
def inOrder (first second : Bool) : List Action :=
  startup 4 ++ [Action.sender, Action.sender, Action.sender, Action.worker 0] ++
    (if first then [Action.handoff 0] else []) ++ [Action.worker 1] ++
    (if second then [Action.handoff 1] else []) ++ shutdown 4

/-- A schedule for two matching records in which the second record reaches the
collecting loop first. -/
def outOfOrder : List Action :=
  startup 4 ++ [Action.sender, Action.worker 0, Action.sender, Action.worker 1, Action.sender,
    Action.handoff 1, Action.handoff 0] ++ shutdown 4

/-- A schedule for two records and a pool of `n` workers in which worker 0
receives both records; `first` and `second` tell whether the records match. -/
def singleWorker (n : Nat) (first second : Bool) : List Action :=
  startup n ++ [Action.sender, Action.sender, Action.sender, Action.worker 0] ++
    (if first then [Action.handoff 0] else []) ++ [Action.worker 0] ++
    (if second then [Action.handoff 0] else []) ++ shutdown n

/-- A schedule for a snapshot of one record that worker 0 receives; `hit`
tells whether the record matches. -/
def oneRecord (hit : Bool) : List Action :=
  startup 4 ++ [Action.sender, Action.sender, Action.worker 0] ++
    (if hit then [Action.handoff 0] else []) ++ shutdown 4

/-! # Properties -/

/-! ## Strings and case mapping -/

theorem stringsHasPrefix_iff : ∀ (s p : Str), stringsHasPrefix s p = true ↔ p <+: s
  | s, [] => by simp [stringsHasPrefix]
  | [], b :: p => by simp [stringsHasPrefix]
  | a :: s, b :: p => by
    simp only [stringsHasPrefix, Bool.and_eq_true, beq_iff_eq, List.cons_prefix_cons,
      stringsHasPrefix_iff s p]
    constructor
    · rintro ⟨h₁, h₂⟩
      exact ⟨h₁.symm, h₂⟩
    · rintro ⟨h₁, h₂⟩
      exact ⟨h₁.symm, h₂⟩

/-- The model of `strings.Contains` decides the substring relation. -/
theorem stringsContains_iff : ∀ (s substr : Str), stringsContains s substr = true ↔ substr <:+: s
  | [], substr => by
    simp only [stringsContains, stringsHasPrefix_iff, List.prefix_nil, List.infix_nil]
  | a :: s, substr => by
    simp only [stringsContains, Bool.or_eq_true, stringsHasPrefix_iff,
      stringsContains_iff s substr, List.infix_cons_iff]

theorem stringsContains_nil (s : Str) : stringsContains s [] = true := by
  rw [stringsContains_iff]
  exact List.nil_infix

theorem sampleTables_asciiRows : asciiRows sampleTables := by
  intro r hr
  simp only [sampleTables, sampleToLower, sampleToUpper]
  refine ⟨trivial, ?_⟩
  split_ifs <;> omega

theorem sampleTables_longSRows : longSRows sampleTables := by
  simp [longSRows, sampleTables, sampleToLower, sampleToUpper]

/-- Tables with the ASCII rows lower-case an ASCII string as `sampleTables` do. -/
theorem stringsToLower_of_asciiRows {T : CaseTables} (hT : asciiRows T) {s : Str}
    (hs : isASCII s) : stringsToLower T s = stringsToLower sampleTables s := by
  simp only [stringsToLower]
  apply List.map_congr_left
  intro r hr
  rw [(hT r (hs r hr)).1]
  rfl

/-- On ASCII strings, lower-casing undoes upper-casing, for all tables with
the ASCII rows. -/
theorem stringsToLower_toUpper_ascii {T : CaseTables} (hT : asciiRows T) {s : Str}
    (hs : isASCII s) : stringsToLower T (stringsToUpper T s) = stringsToLower T s := by
  simp only [stringsToLower, stringsToUpper, List.map_map]
  apply List.map_congr_left
  intro r hr
  have h := hs r hr
  simp only [Function.comp]
  rw [(hT r h).2]
  split_ifs with h₁
  · rw [(hT _ (by omega)).1, (hT r h).1]
    split_ifs <;> omega
  · rfl

/-- On ASCII strings lower-casing is idempotent, for all tables with the ASCII
rows. -/
theorem stringsToLower_idem_ascii {T : CaseTables} (hT : asciiRows T) {s : Str}
    (hs : isASCII s) : stringsToLower T (stringsToLower T s) = stringsToLower T s := by
  simp only [stringsToLower, List.map_map]
  apply List.map_congr_left
  intro r hr
  have h := hs r hr
  simp only [Function.comp]
  rw [(hT r h).1]
  split_ifs with h₁
  · rw [(hT _ (by omega)).1]
    split_ifs <;> omega
  · rw [(hT r h).1, if_neg h₁]

/-- The match predicate on an ASCII query and an ASCII record does not depend
on the tables, as long as they have the ASCII rows. -/
theorem bookMatches_of_asciiRows {T : CaseTables} (hT : asciiRows T) {query : Str}
    {book : Book} (hq : isASCII query) (ht : isASCII book.Title)
    (hd : isASCII book.Description) :
    bookMatches T (stringsToLower T query) book =
      bookMatches sampleTables (stringsToLower sampleTables query) book := by
  simp only [bookMatches, stringsToLower_of_asciiRows hT hq, stringsToLower_of_asciiRows hT ht,
    stringsToLower_of_asciiRows hT hd]

theorem isASCII_of_all {s : Str} (h : s.all (fun r => decide (r < 0x80)) = true) : isASCII s := by
  intro r hr
  have := List.all_eq_true.mp h r hr
  simpa using this

theorem testBooks_ascii : ∀ b ∈ testBooks, isASCII b.Title ∧ isASCII b.Description := by
  intro b hb
  simp only [testBooks, List.mem_cons, List.mem_singleton, List.not_mem_nil, or_false] at hb
  rcases hb with rfl | rfl
  · exact ⟨isASCII_of_all (by decide), isASCII_of_all (by decide)⟩
  · exact ⟨isASCII_of_all (by decide), isASCII_of_all (by decide)⟩

/-- The predicate of `searchWorker` in terms of the substring relation. -/
theorem bookMatches_iff (T : CaseTables) (query : Str) (book : Book) :
    bookMatches T query book = true ↔
      (query <:+: stringsToLower T book.Title ∨ query <:+: stringsToLower T book.Description) := by
  simp [bookMatches, stringsContains_iff]

/-! ## Preservation of the invariant -/

theorem set_of_getElem? {α : Type} : ∀ (l : List α) (i : Nat) (w : α), l[i]? = some w →
    ∃ l₁ l₂, l = l₁ ++ w :: l₂ ∧ l₁.length = i ∧ ∀ w', l.set i w' = l₁ ++ w' :: l₂
  | [], i, w, h => by simp at h
  | a :: l, 0, w, h => by
    simp at h
    exact ⟨[], l, by simp [h], rfl, fun w' => by simp⟩
  | a :: l, i + 1, w, h => by
    simp at h
    obtain ⟨l₁, l₂, h₁, h₂, h₃⟩ := set_of_getElem? l i w h
    exact ⟨a :: l₁, l₂, by simp [h₁], by simp [h₂], fun w' => by simp [h₃]⟩

theorem perm_move_last {α : Type} (a x y : List α) (b : α) :
    (a ++ (x ++ b :: y)).Perm (a ++ (x ++ y) ++ [b]) := by
  have h : (x ++ b :: y).Perm (x ++ y ++ [b]) :=
    List.perm_middle.trans (List.perm_append_singleton b _).symm
  simpa [List.append_assoc] using List.Perm.append_left a h

theorem inv_init (T : CaseTables) (n : Nat) (books : List Book) (query : Str) :
    Inv T n books query initState := by
  constructor <;> simp [initState, mainPhase, senderPhase, closerPhase]

theorem inv_step {T : CaseTables} {n : Nat} {books : List Book} {query : Str} {s s' : State}
    {a : Action}
    (h : Inv T n books query s) (hs : searchStep T n books query s a = some s') :
    Inv T n books query s' := by
  obtain ⟨hp, hwg, hm, hsd, hc, hf, hcons, hd⟩ := h
  rcases s with ⟨m, ws, sd, cl, wg, bc, bcl, rcl, res, pk, sent, rcv⟩
  simp only at hp hwg hm hsd hc hf hcons hd
  subst hp
  cases a with
  | main =>
    cases m with
    | spawn i =>
      simp only [searchStep, Bool.false_eq_true, if_false] at hs
      simp only [mainPhase] at hm
      obtain ⟨hm1, hm2, hm3, hm4⟩ := hm
      subst hm3 hm4
      split at hs
      · cases hs
        constructor <;>
          simp_all [mainPhase, senderPhase, closerPhase, WorkerPC.live, WorkerPC.pending]
        omega
      · cases hs
        constructor <;> simp_all [mainPhase, senderPhase, closerPhase]
        omega
    | goSender =>
      simp only [searchStep, Bool.false_eq_true, if_false] at hs
      simp only [mainPhase] at hm
      obtain ⟨hm1, hm3, hm4⟩ := hm
      subst hm3 hm4
      cases hs
      constructor <;> simp_all [mainPhase, senderPhase, closerPhase]
    | goCloser =>
      simp only [searchStep, Bool.false_eq_true, if_false] at hs
      simp only [mainPhase] at hm
      obtain ⟨hm1, hm3, hm4⟩ := hm
      subst hm4
      cases hs
      constructor <;> simp_all [mainPhase, senderPhase, closerPhase]
    | collect =>
      simp only [searchStep, Bool.false_eq_true, if_false] at hs
      simp only [mainPhase] at hm
      split at hs
      · cases hs
        constructor <;> simp_all [mainPhase, senderPhase, closerPhase]
      · cases hs
    | returned => simp [searchStep] at hs
  | sender =>
    cases sd with
    | idle => simp [searchStep] at hs
    | finished => simp [searchStep] at hs
    | loop i =>
      simp only [searchStep, Bool.false_eq_true, if_false] at hs
      simp only [senderPhase] at hsd
      obtain ⟨hs1, hs2, hs3⟩ := hsd
      subst hs3
      split at hs
      · rename_i book hb
        simp only [Bool.false_eq_true, if_false] at hs
        split at hs
        · cases hs
          have hlt : i < books.length := by
            rcases Nat.lt_or_ge i books.length with h | h
            · exact h
            · simp [List.getElem?_eq_none h] at hb
          have htake : books.take (i + 1) = books.take i ++ [book] := by
            rw [List.take_succ, hb]; rfl
          constructor
          · simp
          · simpa using hwg
          · cases m <;> simp_all [mainPhase]
          · simp only [senderPhase]
            refine ⟨?_, hlt, trivial⟩
            rw [htake, hs1]
          · cases cl <;> simp_all [closerPhase]
          · simp only
            rw [← List.append_assoc, hf]
          · simpa using hcons
          · intro hdone
            have := hd hdone
            simp at this
        · cases hs
      · rename_i hb
        simp only [Bool.false_eq_true, if_false] at hs
        cases hs
        have hge : books.length ≤ i := by
          rcases Nat.lt_or_ge i books.length with h | h
          · simp [List.getElem?_eq_getElem h] at hb
          · exact h
        constructor
        · simp
        · simpa using hwg
        · cases m <;> simp_all [mainPhase]
        · simp only [senderPhase]
          refine ⟨?_, trivial⟩
          rw [hs1, List.take_of_length_le hge]
        · cases cl <;> simp_all [closerPhase]
        · simpa using hf
        · simpa using hcons
        · intro hdone
          have := hd hdone
          simp at this
  | closer =>
    cases cl with
    | idle => simp [searchStep] at hs
    | finished => simp [searchStep] at hs
    | wait =>
      simp only [searchStep, Bool.false_eq_true, if_false] at hs
      simp only [closerPhase] at hc
      subst hc
      split at hs
      · rename_i hz
        simp only [Bool.false_eq_true, if_false] at hs
        cases hs
        constructor
        · simp
        · simpa using hwg
        · cases m <;> simp_all [mainPhase]
        · cases sd <;> simp_all [senderPhase]
        · simp [closerPhase, hz]
        · simpa using hf
        · simpa using hcons
        · simpa using hd
      · cases hs
  | worker i =>
    simp only [searchStep, searchWorker, Bool.false_eq_true, if_false] at hs
    split at hs
    · rename_i hw
      obtain ⟨l₁, l₂, rfl, hlen, hset⟩ := set_of_getElem? ws i _ hw
      split at hs
      · rename_i book rest
        cases hs
        constructor
        · simp
        · simp only [hset]
          split <;> simpa [WorkerPC.live] using hwg
        · cases m <;> simp_all [mainPhase]
        · cases sd <;> simp_all [senderPhase]
        · cases cl <;> simp_all [closerPhase]
        · simpa using hf
        · simp only [hset]
          cases hmatch : bookMatches T query book
          · simpa [WorkerPC.pending, hmatch, List.filter_append] using hcons
          · simp only [if_true, List.map_append, List.map_cons, List.map_nil,
              List.filter_append, List.filterMap_append, List.filterMap_cons,
              WorkerPC.pending]
            simp only [List.filterMap_append, List.filterMap_cons, WorkerPC.pending] at hcons
            simp only [List.filter_cons, hmatch, if_true, List.filter_nil]
            exact (perm_move_last _ _ _ _).trans (List.Perm.append_right _ hcons)
        · intro hdone
          simp only [hset] at hdone
          have hdone' : WorkerPC.done ∈ l₁ ++ WorkerPC.recv :: l₂ := by
            simp only [List.mem_append, List.mem_cons] at hdone ⊢
            rcases hdone with h | h | h
            · exact Or.inl h
            · split at h <;> cases h
            · exact Or.inr (Or.inr h)
          have := hd hdone'
          simp at this
      · split at hs
        · rename_i hbcl
          subst hbcl
          cases hs
          have hpos : (1 : Int) ≤ wg := by
            rw [hwg]
            simp [WorkerPC.live, List.countP_append, List.countP_cons]
            omega
          constructor
          · simp; omega
          · simp only [hset]
            simp [WorkerPC.live, List.countP_append, List.countP_cons] at hwg ⊢
            omega
          · cases m <;> simp_all [mainPhase]
          · cases sd <;> simp_all [senderPhase]
          · cases cl <;> simp_all [closerPhase]
          · simpa using hf
          · simpa [hset, WorkerPC.pending] using hcons
          · intro _
            simp
        · cases hs
    · rename_i book hw
      obtain ⟨l₁, l₂, rfl, hlen, hset⟩ := set_of_getElem? ws i _ hw
      split at hs
      · rename_i hrcl
        subst hrcl
        exfalso
        have hpos : (1 : Int) ≤ wg := by
          rw [hwg]
          simp [WorkerPC.live, List.countP_append, List.countP_cons]
          omega
        cases cl <;> simp_all [closerPhase]
      · cases hs
    · cases hs
    · cases hs
  | handoff i =>
    simp only [searchStep, Bool.false_eq_true, if_false] at hs
    split at hs
    · rename_i book hw
      obtain ⟨l₁, l₂, rfl, hlen, hset⟩ := set_of_getElem? ws i _ hw
      split at hs
      · cases hs
      · cases hs
        constructor
        · simp
        · simpa [hset, WorkerPC.live] using hwg
        · simp_all [mainPhase]
        · cases sd <;> simp_all [senderPhase]
        · cases cl <;> simp_all [closerPhase]
        · simpa using hf
        · simp only [hset, List.filterMap_append, List.filterMap_cons, WorkerPC.pending]
          simp only [List.filterMap_append, List.filterMap_cons, WorkerPC.pending] at hcons
          refine List.Perm.trans ?_ hcons
          rw [List.append_assoc]
          refine List.Perm.append_left _ ?_
          exact List.perm_append_comm.trans (perm_move_last [] _ _ _).symm
        · intro hdone
          apply hd
          simp only [hset, List.mem_append, List.mem_cons] at hdone ⊢
          rcases hdone with h | h | h
          · exact Or.inl h
          · cases h
          · exact Or.inr (Or.inr h)
    · cases hs

theorem received_index_step {T : CaseTables} {n : Nat} {books : List Book} {query : Str}
    {s s' : State}
    {a : Action} (h : ∀ e ∈ s.received, e.1 < s.workers.length)
    (hs : searchStep T n books query s a = some s') :
    ∀ e ∈ s'.received, e.1 < s'.workers.length := by
  rcases s with ⟨m, ws, sd, cl, wg, bc, bcl, rcl, res, pk, sent, rcv⟩
  simp only at h
  cases pk with
  | true => cases a <;> simp [searchStep] at hs
  | false =>
  cases a with
  | main =>
    simp only [searchStep, Bool.false_eq_true, if_false] at hs
    cases m with
    | spawn i =>
      simp only at hs
      split at hs
      · cases hs
        intro e he
        have := h e he
        simp only [List.length_append, List.length_singleton]
        omega
      · cases hs
        exact h
    | goSender => cases hs; exact h
    | goCloser => cases hs; exact h
    | collect =>
      simp only at hs
      split at hs
      · cases hs; exact h
      · cases hs
    | returned => cases hs
  | sender =>
    simp only [searchStep, Bool.false_eq_true, if_false] at hs
    cases sd with
    | idle => cases hs
    | finished => cases hs
    | loop i =>
      simp only at hs
      split at hs
      · split at hs
        · cases hs; exact h
        · split at hs
          · cases hs; exact h
          · cases hs
      · split at hs
        · cases hs; exact h
        · cases hs; exact h
  | closer =>
    simp only [searchStep, Bool.false_eq_true, if_false] at hs
    cases cl with
    | idle => cases hs
    | finished => cases hs
    | wait =>
      simp only at hs
      split at hs
      · split at hs
        · cases hs; exact h
        · cases hs; exact h
      · cases hs
  | worker i =>
    simp only [searchStep, searchWorker, Bool.false_eq_true, if_false] at hs
    split at hs
    · rename_i hw
      obtain ⟨l₁, l₂, rfl, hlen, hset⟩ := set_of_getElem? ws i _ hw
      split at hs
      · cases hs
        intro e he
        simp only [List.mem_append, List.mem_singleton] at he
        simp only [List.length_set]
        rcases he with he | rfl
        · exact h e he
        · simp only [List.length_append, List.length_cons]
          omega
      · split at hs
        · cases hs
          simpa only [List.length_set] using h
        · cases hs
    · split at hs
      · cases hs; exact h
      · cases hs
    · cases hs
    · cases hs
  | handoff i =>
    simp only [searchStep, Bool.false_eq_true, if_false] at hs
    split at hs
    · split at hs
      · cases hs
      · cases hs
        simpa only [List.length_set] using h
    · cases hs

theorem received_index_run {T : CaseTables} {n : Nat} {books : List Book} {query : Str} :
    ∀ (sched : List Action) {s s' : State}, (∀ e ∈ s.received, e.1 < s.workers.length) →
      runSchedule T n books query s sched = some s' →
      ∀ e ∈ s'.received, e.1 < s'.workers.length
  | [], s, s', h, hr => by
    simp only [runSchedule, Option.some.injEq] at hr
    exact hr ▸ h
  | a :: rest, s, s', h, hr => by
    simp only [runSchedule] at hr
    split at hr
    · rename_i s₁ hs
      exact received_index_run rest (received_index_step h hs) hr
    · cases hr

/-! ## Executions -/

theorem inv_run {T : CaseTables} {n : Nat} {books : List Book} {query : Str} :
    ∀ (sched : List Action) {s s' : State}, Inv T n books query s →
      runSchedule T n books query s sched = some s' → Inv T n books query s'
  | [], s, s', h, hr => by
    simp only [runSchedule, Option.some.injEq] at hr
    exact hr ▸ h
  | a :: rest, s, s', h, hr => by
    simp only [runSchedule] at hr
    split at hr
    · rename_i s₁ hs
      exact inv_run rest (inv_step h hs) hr
    · cases hr

theorem runSchedule_append {T : CaseTables} {n : Nat} {books : List Book} {query : Str} :
    ∀ (sched₁ sched₂ : List Action) (s : State),
      runSchedule T n books query s (sched₁ ++ sched₂) =
        (runSchedule T n books query s sched₁).bind
          (fun s₁ => runSchedule T n books query s₁ sched₂)
  | [], sched₂, s => by simp [runSchedule]
  | a :: rest, sched₂, s => by
    simp only [List.cons_append, runSchedule]
    cases searchStep T n books query s a with
    | none => simp
    | some s₁ => simpa using runSchedule_append rest sched₂ s₁

/-- Once `resultChannel` is closed every worker has ended, every record of the
snapshot has been received, and `results` holds the matching ones. -/
theorem inv_closed {T : CaseTables} {n : Nat} {books : List Book} {query : Str} {s : State}
    (h : Inv T n books query s) (hn : 1 ≤ n) (hc : s.resultClosed = true) :
    s.workers.length = n ∧ (∀ w ∈ s.workers, w = WorkerPC.done) ∧ s.wg = 0 ∧
      s.bookClosed = true ∧ s.bookChannel = [] ∧ s.sent = books ∧
      s.received.map Prod.snd = books ∧
      s.results.Perm (books.filter (bookMatches T query)) := by
  obtain ⟨hp, hwg, hm, hsd, hcl, hf, hcons, hd⟩ := h
  rcases s with ⟨m, ws, sd, cl, wg, bc, bcl, rcl, res, pk, sent, rcv⟩
  simp only at hp hwg hm hsd hcl hf hcons hd hc
  subst hc
  have hfin : cl = CloserPC.finished ∧ wg = 0 := by
    cases cl <;> simp_all [closerPhase]
  obtain ⟨rfl, rfl⟩ := hfin
  have hlen : ws.length = n := by
    cases m <;> simp_all [mainPhase]
  have hall : ∀ w ∈ ws, w = WorkerPC.done := by
    intro w hw
    have h0 : ws.countP WorkerPC.live = 0 := by exact_mod_cast hwg.symm
    rw [List.countP_eq_zero] at h0
    have := h0 w hw
    cases w <;> simp_all [WorkerPC.live]
  have hmem : WorkerPC.done ∈ ws := by
    cases ws with
    | nil => simp at hlen; omega
    | cons w ws' =>
      have := hall w (by simp)
      simp [this]
  obtain ⟨hbcl, hbc⟩ := hd hmem
  subst hbcl hbc
  have hsent : sent = books := by
    cases sd <;> simp_all [senderPhase]
  have hpend : ws.filterMap WorkerPC.pending = [] := by
    rw [List.filterMap_eq_nil_iff]
    intro w hw
    rw [hall w hw]
    rfl
  simp only [List.append_nil] at hf
  simp only [hpend, List.append_nil, hf, hsent] at hcons
  exact ⟨hlen, hall, rfl, rfl, rfl, hsent, hf.trans hsent, hcons⟩

/-- Every result of the search with a pool of at least one worker is a
permutation of the matching records of the snapshot. -/
theorem performSearchWith_perm {T : CaseTables} {n : Nat} {books : List Book} {query : Str}
    {sched : List Action} {res : List Book} (hn : 1 ≤ n)
    (h : performSearchWith T n books query sched = some res) :
    res.Perm (sequentialSearch T books query) := by
  unfold performSearchWith at h
  split at h
  · rename_i s hs
    split at h
    · rename_i hret
      cases h
      have hinv := inv_run sched (inv_init T n books (stringsToLower T query)) hs
      have hrc : s.resultClosed = true := by
        have := hinv.mainOK
        rw [hret] at this
        exact this.2.2.2
      exact (inv_closed hinv hn hrc).2.2.2.2.2.2.2
    · cases h
  · cases h

/-! ## Termination and absence of deadlock -/

theorem variant_step {T : CaseTables} {n : Nat} {books : List Book} {query : Str} {s s' : State}
    {a : Action}
    (hs : searchStep T n books query s a = some s') :
    variant n books s' < variant n books s := by
  rcases s with ⟨m, ws, sd, cl, wg, bc, bcl, rcl, res, pk, sent, rcv⟩
  cases pk with
  | true => cases a <;> simp [searchStep] at hs
  | false =>
  cases a with
  | main =>
    simp only [searchStep, Bool.false_eq_true, if_false] at hs
    cases m with
    | spawn i =>
      simp only at hs
      split at hs
      · cases hs
        simp [variant, MainPC.rank, WorkerPC.rank]
        omega
      · cases hs
        simp [variant, MainPC.rank]
        omega
    | goSender =>
      cases hs
      simp only [variant, MainPC.rank, SenderPC.rank]
      omega
    | goCloser =>
      cases hs
      simp only [variant, MainPC.rank, CloserPC.rank]
      omega
    | collect =>
      simp only at hs
      split at hs
      · cases hs
        simp [variant, MainPC.rank]
      · cases hs
    | returned => cases hs
  | sender =>
    simp only [searchStep, Bool.false_eq_true, if_false] at hs
    cases sd with
    | idle => cases hs
    | finished => cases hs
    | loop i =>
      simp only at hs
      split at hs
      · rename_i book hb
        have hlt : i < books.length := by
          rcases Nat.lt_or_ge i books.length with h | h
          · exact h
          · simp [List.getElem?_eq_none h] at hb
        split at hs
        · cases hs
          simp [variant]
        · split at hs
          · cases hs
            simp [variant, SenderPC.rank]
            omega
          · cases hs
      · split at hs
        · cases hs
          simp [variant]
        · cases hs
          simp [variant, SenderPC.rank]
  | closer =>
    simp only [searchStep, Bool.false_eq_true, if_false] at hs
    cases cl with
    | idle => cases hs
    | finished => cases hs
    | wait =>
      simp only at hs
      split at hs
      · split at hs
        · cases hs
          simp [variant]
        · cases hs
          simp [variant, CloserPC.rank]
      · cases hs
  | worker i =>
    simp only [searchStep, searchWorker, Bool.false_eq_true, if_false] at hs
    split at hs
    · rename_i hw
      obtain ⟨l₁, l₂, rfl, hlen, hset⟩ := set_of_getElem? ws i _ hw
      split at hs
      · cases hs
        simp only [hset]
        split
        · simp [variant, WorkerPC.rank]
          omega
        · simp [variant, WorkerPC.rank]
      · split at hs
        · cases hs
          simp only [hset]
          simp [variant, WorkerPC.rank]
          split <;> omega
        · cases hs
    · split at hs
      · cases hs
        simp [variant]
      · cases hs
    · cases hs
    · cases hs
  | handoff i =>
    simp only [searchStep, Bool.false_eq_true, if_false] at hs
    split at hs
    · rename_i book hw
      obtain ⟨l₁, l₂, rfl, hlen, hset⟩ := set_of_getElem? ws i _ hw
      split at hs
      · cases hs
      · cases hs
        simp only [hset]
        simp [variant, WorkerPC.rank]
    · cases hs

theorem variant_run {T : CaseTables} {n : Nat} {books : List Book} {query : Str} :
    ∀ (sched : List Action) {s s' : State},
      runSchedule T n books query s sched = some s' →
      sched.length + variant n books s' ≤ variant n books s
  | [], s, s', hr => by
    simp only [runSchedule, Option.some.injEq] at hr
    simp [hr]
  | a :: rest, s, s', hr => by
    simp only [runSchedule] at hr
    split at hr
    · rename_i s₁ hs
      have h₁ := variant_step hs
      have h₂ := variant_run rest hr
      simp only [List.length_cons]
      omega
    · cases hr

theorem variant_init (n : Nat) (books : List Book) :
    variant n books initState = 2 * n + 3 * books.length + 7 := by
  simp [variant, initState, MainPC.rank, SenderPC.rank, CloserPC.rank]

/-- A state that satisfies the invariant and in which `performSearch` has not
returned has a goroutine that can move. -/
theorem progress {T : CaseTables} {n : Nat} {books : List Book} {query : Str} {s : State}
    (h : Inv T n books query s) (hm : s.main ≠ MainPC.returned) :
    ∃ a s', searchStep T n books query s a = some s' := by
  obtain ⟨hp, hwg, hmain, hsd, hcl, hf, hcons, hd⟩ := h
  rcases s with ⟨m, ws, sd, cl, wg, bc, bcl, rcl, res, pk, sent, rcv⟩
  simp only at hp hwg hmain hsd hcl hf hcons hd hm
  subst hp
  cases m with
  | spawn i =>
    refine ⟨.main, ?_⟩
    simp only [searchStep, Bool.false_eq_true, if_false]
    split <;> exact ⟨_, rfl⟩
  | goSender => exact ⟨.main, _, rfl⟩
  | goCloser => exact ⟨.main, _, rfl⟩
  | returned => exact absurd rfl hm
  | collect =>
    simp only [mainPhase] at hmain
    obtain ⟨hlen, hsd0, hcl0⟩ := hmain
    cases sd with
    | idle => exact absurd rfl hsd0
    | loop i =>
      simp only [senderPhase] at hsd
      obtain ⟨hsent, hi, hbcl⟩ := hsd
      subst hbcl
      refine ⟨.sender, ?_⟩
      simp only [searchStep, Bool.false_eq_true, if_false]
      split
      · rename_i book hb
        have hlt : i < books.length := by
          rcases Nat.lt_or_ge i books.length with h | h
          · exact h
          · simp [List.getElem?_eq_none h] at hb
        have hbc : bc.length < books.length := by
          have := congrArg List.length hf
          simp only [List.length_append, List.length_map, hsent, List.length_take] at this
          omega
        simp only [hbc, if_true]
        exact ⟨_, rfl⟩
      · exact ⟨_, rfl⟩
    | finished =>
      simp only [senderPhase] at hsd
      obtain ⟨hsent, hbcl⟩ := hsd
      subst hbcl
      by_cases hlive : ∃ w ∈ ws, WorkerPC.live w = true
      · obtain ⟨w, hw, hwl⟩ := hlive
        obtain ⟨i, hi⟩ := List.mem_iff_getElem?.mp hw
        cases w with
        | done => simp [WorkerPC.live] at hwl
        | recv =>
          refine ⟨.worker i, ?_⟩
          simp only [searchStep, searchWorker, Bool.false_eq_true, if_false, hi]
          cases bc with
          | nil => exact ⟨_, rfl⟩
          | cons b rest => exact ⟨_, rfl⟩
        | send book =>
          have hrcl : rcl = false := by
            cases hr : rcl
            · rfl
            · exfalso
              subst hr
              have hfin : cl = CloserPC.finished ∧ wg = 0 := by
                cases cl <;> simp_all [closerPhase]
              obtain ⟨_, rfl⟩ := hfin
              have h0 : ws.countP WorkerPC.live = 0 := by exact_mod_cast hwg.symm
              rw [List.countP_eq_zero] at h0
              have := h0 _ hw
              simp [WorkerPC.live] at this
          subst hrcl
          refine ⟨.handoff i, ?_⟩
          simp only [searchStep, Bool.false_eq_true, if_false, hi]
          exact ⟨_, rfl⟩
      · have h0 : ws.countP WorkerPC.live = 0 := by
          rw [List.countP_eq_zero]
          intro w hw hl
          exact hlive ⟨w, hw, hl⟩
        have hwg0 : wg = 0 := by simp [hwg, h0]
        subst hwg0
        cases cl with
        | idle => exact absurd rfl hcl0
        | wait =>
          simp only [closerPhase] at hcl
          subst hcl
          exact ⟨.closer, _, rfl⟩
        | finished =>
          simp only [closerPhase] at hcl
          obtain ⟨hrcl, _⟩ := hcl
          subst hrcl
          exact ⟨.main, _, rfl⟩

/-- From every state that satisfies the invariant some schedule brings
`performSearch` to its `return`. -/
theorem completes {T : CaseTables} {n : Nat} {books : List Book} {query : Str} :
    ∀ (k : Nat) (s : State), variant n books s ≤ k → Inv T n books query s →
      ∃ sched s', runSchedule T n books query s sched = some s' ∧ s'.main = MainPC.returned
  | 0, s, hk, h => by
    by_cases hm : s.main = MainPC.returned
    · exact ⟨[], s, rfl, hm⟩
    · obtain ⟨a, s₁, hs⟩ := progress h hm
      have := variant_step hs
      omega
  | k + 1, s, hk, h => by
    by_cases hm : s.main = MainPC.returned
    · exact ⟨[], s, rfl, hm⟩
    · obtain ⟨a, s₁, hs⟩ := progress h hm
      have hlt := variant_step hs
      obtain ⟨sched, s', hr, hret⟩ := completes k s₁ (by omega) (inv_step h hs)
      refine ⟨a :: sched, s', ?_, hret⟩
      simp only [runSchedule, hs, hr]

/-- The search returns under some schedule, for every pool size. -/
theorem performSearchWith_returns (T : CaseTables) (n : Nat) (books : List Book) (query : Str) :
    ∃ sched res, performSearchWith T n books query sched = some res := by
  obtain ⟨sched, s', hr, hret⟩ :=
    completes (variant n books initState) initState (Nat.le_refl _)
      (inv_init T n books (stringsToLower T query))
  exact ⟨sched, s'.results, by simp [performSearchWith, hr, hret]⟩

/-! ## The search engine -/

theorem performSearch_returns (T : CaseTables) (books : List Book) (query : Str) :
    ∃ res, PerformSearchReturns T books query res := by
  obtain ⟨sched, res, h⟩ := performSearchWith_returns T 4 books query
  exact ⟨res, sched, h⟩

theorem performSearch_perm {T : CaseTables} {books : List Book} {query : Str} {sched : List Action}
    {res : List Book} (h : performSearch T books query sched = some res) :
    res.Perm (sequentialSearch T books query) :=
  performSearchWith_perm (by decide : 1 ≤ 4) h

theorem mem_sequentialSearch (T : CaseTables) (books : List Book) (query : Str) (r : Book) :
    r ∈ sequentialSearch T books query ↔
      r ∈ books ∧ (stringsToLower T query <:+: stringsToLower T r.Title ∨
        stringsToLower T query <:+: stringsToLower T r.Description) := by
  simp [sequentialSearch, bookMatches_iff]

/-- The sequential filter of ASCII records by an ASCII query does not depend on
the tables, as long as they have the ASCII rows. -/
theorem sequentialSearch_of_asciiRows {T : CaseTables} (hT : asciiRows T) {books : List Book}
    {query : Str} (hq : isASCII query)
    (hb : ∀ b ∈ books, isASCII b.Title ∧ isASCII b.Description) :
    sequentialSearch T books query = sequentialSearch sampleTables books query := by
  unfold sequentialSearch
  apply List.filter_congr
  intro b hmem
  exact bookMatches_of_asciiRows hT hq (hb b hmem).1 (hb b hmem).2

/-- C1, completeness of search: `performSearch` returns under some schedule,
and under every schedule a record is in the result if and only if it is in the
snapshot and its lower-cased title or lower-cased description contains the
lower-cased query as a substring. -/
theorem performSearch_complete (T : CaseTables) (books : List Book) (query : Str) :
    (∃ res, PerformSearchReturns T books query res) ∧
    ∀ res, PerformSearchReturns T books query res → ∀ r : Book,
      (r ∈ res ↔ r ∈ books ∧
        (stringsToLower T query <:+: stringsToLower T r.Title ∨
          stringsToLower T query <:+: stringsToLower T r.Description)) := by
  refine ⟨performSearch_returns T books query, ?_⟩
  rintro res ⟨sched, h⟩ r
  have hperm := performSearch_perm h
  rw [hperm.mem_iff, mem_sequentialSearch]

/-- C1 on the sample data. `sampleTables` have the ASCII rows; under them the
query "test book 1" returns exactly the first record, "description" both
records and "nope" none; and for all case tables with the ASCII rows and every
schedule, the first query finds the first record and not the second, the
second finds both and the third finds neither. -/
theorem performSearch_complete_witness :
    asciiRows sampleTables ∧
    performSearch sampleTables testBooks (str "test book 1") (inOrder true false) =
      some [testBook1] ∧
    performSearch sampleTables testBooks (str "description") (inOrder true true) =
      some [testBook1, testBook2] ∧
    performSearch sampleTables testBooks (str "nope") (inOrder false false) = some [] ∧
    ∀ T, asciiRows T →
      (∀ res, PerformSearchReturns T testBooks (str "test book 1") res →
        testBook1 ∈ res ∧ testBook2 ∉ res) ∧
      (∀ res, PerformSearchReturns T testBooks (str "description") res →
        testBook1 ∈ res ∧ testBook2 ∈ res) ∧
      (∀ res, PerformSearchReturns T testBooks (str "nope") res →
        testBook1 ∉ res ∧ testBook2 ∉ res) := by
  refine ⟨sampleTables_asciiRows, by decide, by decide, by decide, ?_⟩
  intro T hT
  have h₁ := testBooks_ascii testBook1 (by decide)
  have h₂ := testBooks_ascii testBook2 (by decide)
  have key : ∀ (query : Str), isASCII query → ∀ res, PerformSearchReturns T testBooks query res →
      ∀ b, isASCII b.Title → isASCII b.Description →
        (b ∈ res ↔ b ∈ testBooks ∧
          bookMatches sampleTables (stringsToLower sampleTables query) b = true) := by
    intro query hq res h b ht hd
    rw [(performSearch_complete T testBooks query).2 res h b, ← bookMatches_iff,
      bookMatches_of_asciiRows hT hq ht hd]
  refine ⟨?_, ?_, ?_⟩
  · intro res h
    have hq : isASCII (str "test book 1") := isASCII_of_all (by decide)
    rw [key _ hq res h _ h₁.1 h₁.2, key _ hq res h _ h₂.1 h₂.2]
    decide
  · intro res h
    have hq : isASCII (str "description") := isASCII_of_all (by decide)
    rw [key _ hq res h _ h₁.1 h₁.2, key _ hq res h _ h₂.1 h₂.2]
    decide
  · intro res h
    have hq : isASCII (str "nope") := isASCII_of_all (by decide)
    rw [key _ hq res h _ h₁.1 h₁.2, key _ hq res h _ h₂.1 h₂.2]
    decide

/-- C2, no duplication: in every execution that returns, the receive events on
`bookChannel` list the records of the snapshot position by position, each
position once and each event by one worker of the pool, and the result is a
permutation of the sub-list of matching records; so no record occurs more often
in the result than in the snapshot, and a snapshot without repeated records
gives a result without repeated records. -/
theorem performSearch_no_duplication (T : CaseTables) (books : List Book) (query : Str) :
    (∃ res, PerformSearchReturns T books query res) ∧
    (∀ sched s, runSchedule T 4 books (stringsToLower T query) initState sched = some s →
      s.main = MainPC.returned →
        s.received.map Prod.snd = books ∧ (∀ e ∈ s.received, e.1 < 4) ∧
        s.results.Perm (books.filter (bookMatches T (stringsToLower T query)))) ∧
    ∀ res, PerformSearchReturns T books query res →
      res.Perm (books.filter (bookMatches T (stringsToLower T query))) ∧
      (∀ r, res.count r ≤ books.count r) ∧ (books.Nodup → res.Nodup) := by
  refine ⟨performSearch_returns T books query, ?_, ?_⟩
  · intro sched s hr hret
    have hinv := inv_run sched (inv_init T 4 books (stringsToLower T query)) hr
    have hrc : s.resultClosed = true := by
      have := hinv.mainOK
      rw [hret] at this
      exact this.2.2.2
    obtain ⟨hlen, -, -, -, -, -, hrecv, hperm⟩ := inv_closed hinv (by decide : 1 ≤ 4) hrc
    refine ⟨hrecv, ?_, hperm⟩
    have hidx := received_index_run sched (s := initState)
      (by simp [initState]) hr
    intro e he
    have := hidx e he
    omega
  · rintro res ⟨sched, h⟩
    have hperm : res.Perm (books.filter (bookMatches T (stringsToLower T query))) :=
      performSearch_perm h
    refine ⟨hperm, ?_, ?_⟩
    · intro r
      rw [hperm.count_eq]
      exact List.Sublist.count_le (List.filter_sublist _) r
    · intro hnd
      exact hperm.nodup_iff.mpr (hnd.sublist (List.filter_sublist _))

/-- C2 on the sample data: the query "description" matches both records. Under
`sampleTables` one schedule lists them in store order and another in the
opposite order; for all case tables with the ASCII rows and every schedule the
result is a permutation of the two records, each occurring exactly once. -/
theorem performSearch_no_duplication_witness :
    performSearch sampleTables testBooks (str "description") (inOrder true true) =
      some [testBook1, testBook2] ∧
    performSearch sampleTables testBooks (str "description") outOfOrder =
      some [testBook2, testBook1] ∧
    ∀ T, asciiRows T → ∀ res, PerformSearchReturns T testBooks (str "description") res →
      res.Perm [testBook1, testBook2] ∧ res.count testBook1 = 1 ∧ res.count testBook2 = 1 := by
  refine ⟨by decide, by decide, ?_⟩
  intro T hT res h
  have hp := ((performSearch_no_duplication T testBooks (str "description")).2.2 res h).1
  have hf : testBooks.filter (bookMatches T (stringsToLower T (str "description"))) =
      [testBook1, testBook2] := by
    have hq : isASCII (str "description") := isASCII_of_all (by decide)
    have := sequentialSearch_of_asciiRows hT hq testBooks_ascii
    simp only [sequentialSearch] at this
    rw [this]
    decide
  rw [hf] at hp
  refine ⟨hp, ?_, ?_⟩
  · rw [hp.count_eq]
    decide
  · rw [hp.count_eq]
    decide

/-- C3, close-after-done ordering: in every reachable state of `performSearch`
nothing has panicked (so no worker has sent on a closed channel); if
`resultChannel` is closed then all 4 workers were started and have run
`wg.Done`, the counter is 0 and `results` already holds every match; and if
`bookChannel` is closed then every record of the snapshot has been sent to it. -/
theorem close_after_done (T : CaseTables) (books : List Book) (query : Str)
    (sched : List Action) (s : State)
    (h : runSchedule T 4 books (stringsToLower T query) initState sched = some s) :
    s.panicked = false ∧
    (s.resultClosed = true →
      s.workers.length = 4 ∧ (∀ w ∈ s.workers, w = WorkerPC.done) ∧ s.wg = 0 ∧
      s.results.Perm (sequentialSearch T books query)) ∧
    (s.bookClosed = true → s.sent = books) := by
  have hinv := inv_run sched (inv_init T 4 books (stringsToLower T query)) h
  refine ⟨hinv.noPanic, ?_, ?_⟩
  · intro hrc
    obtain ⟨h₁, h₂, h₃, -, -, -, -, h₄⟩ := inv_closed hinv (by decide : 1 ≤ 4) hrc
    exact ⟨h₁, h₂, h₃, h₄⟩
  · intro hbc
    have hsd := hinv.senderOK
    cases hsender : s.sender <;> rw [hsender] at hsd <;> simp_all [senderPhase]

/-- C3 on the sample data: a run of the query "test book 1" up to the close of
`resultChannel`, before the collecting loop has ended. -/
theorem close_after_done_witness :
    ∃ s, runSchedule sampleTables 4 testBooks (stringsToLower sampleTables (str "test book 1"))
        initState ((inOrder true false).dropLast) = some s ∧
      s.main = MainPC.collect ∧ s.resultClosed = true ∧ s.bookClosed = true ∧
      s.panicked = false ∧ s.workers = List.replicate 4 WorkerPC.done ∧
      s.results.Perm (sequentialSearch sampleTables testBooks (str "test book 1")) ∧
      s.sent = testBooks := by
  refine ⟨_, rfl, rfl, rfl, rfl, ?_⟩
  have h := close_after_done sampleTables testBooks (str "test book 1")
    ((inOrder true false).dropLast) _ rfl
  exact ⟨h.1, rfl, (h.2.1 rfl).2.2.2, h.2.2 rfl⟩

/-- C4, termination: `performSearch` returns under some schedule; every
execution has at most `3 * len(books) + 15` steps; in every reachable state in
which `performSearch` has not returned some goroutine can move (no deadlock);
and every execution can be continued until `performSearch` returns. -/
theorem performSearch_terminates (T : CaseTables) (books : List Book) (query : Str) :
    (∃ sched res, performSearch T books query sched = some res) ∧
    ∀ sched s, runSchedule T 4 books (stringsToLower T query) initState sched = some s →
      sched.length ≤ 3 * books.length + 15 ∧
      (s.main ≠ MainPC.returned →
        ∃ a s', searchStep T 4 books (stringsToLower T query) s a = some s') ∧
      ∃ rest s',
        runSchedule T 4 books (stringsToLower T query) initState (sched ++ rest) = some s' ∧
        s'.main = MainPC.returned := by
  refine ⟨performSearchWith_returns T 4 books query, ?_⟩
  intro sched s hr
  have hinv := inv_run sched (inv_init T 4 books (stringsToLower T query)) hr
  refine ⟨?_, progress hinv, ?_⟩
  · have := variant_run sched hr
    rw [variant_init] at this
    omega
  · obtain ⟨rest, s', hr', hret⟩ := completes (variant 4 books s) s (Nat.le_refl _) hinv
    exact ⟨rest, s', by rw [runSchedule_append, hr]; exact hr', hret⟩

/-- C4 on the empty snapshot and on a snapshot with fewer records than
workers: both searches return, and no execution is longer than the bound. -/
theorem performSearch_terminates_witness :
    performSearch sampleTables [] (str "book") (startup 4 ++ [Action.sender] ++ shutdown 4) =
      some [] ∧
    performSearch sampleTables [longSBook] (str "book") (oneRecord false) = some [] ∧
    ∀ T, ∀ sched s,
      runSchedule T 4 [longSBook] (stringsToLower T (str "book")) initState sched = some s →
        sched.length ≤ 18 := by
  refine ⟨by decide, by decide, ?_⟩
  intro T sched s hr
  exact ((performSearch_terminates T [longSBook] (str "book")).2 sched s hr).1

/-- C5, worker-count invariance: for pool sizes `n₁, n₂ ≥ 1` the search
returns, every result of the pool of size `n₁` is a permutation of the
sequential filter of the snapshot, and any two results of the two pools, under
any two schedules, are permutations of one another and hold the same records. -/
theorem worker_count_invariance (T : CaseTables) (books : List Book) (query : Str) (n₁ n₂ : Nat)
    (h₁ : 1 ≤ n₁) (h₂ : 1 ≤ n₂) :
    (∃ sched res, performSearchWith T n₁ books query sched = some res) ∧
    ∀ sched₁ sched₂ res₁ res₂,
      performSearchWith T n₁ books query sched₁ = some res₁ →
      performSearchWith T n₂ books query sched₂ = some res₂ →
        res₁.Perm (sequentialSearch T books query) ∧ res₁.Perm res₂ ∧
        ∀ r, r ∈ res₁ ↔ r ∈ res₂ := by
  refine ⟨performSearchWith_returns T n₁ books query, ?_⟩
  intro sched₁ sched₂ res₁ res₂ hr₁ hr₂
  have hp₁ := performSearchWith_perm h₁ hr₁
  have hp₂ := performSearchWith_perm h₂ hr₂
  exact ⟨hp₁, hp₁.trans hp₂.symm, fun r => (hp₁.trans hp₂.symm).mem_iff⟩

set_option maxRecDepth 100000 in
/-- C5 on the sample data with pools of 1, 4 and 100 workers: under
`sampleTables` each pool returns both records for the query "TEST", and for all
case tables with the ASCII rows any result of the pool of 1 and any result of
the pool of 100 are permutations of the two records and of one another. -/
theorem worker_count_invariance_witness :
    performSearchWith sampleTables 1 testBooks (str "TEST") (singleWorker 1 true true) =
      some testBooks ∧
    performSearchWith sampleTables 4 testBooks (str "TEST") (inOrder true true) =
      some testBooks ∧
    performSearchWith sampleTables 100 testBooks (str "TEST") (singleWorker 100 true true) =
      some testBooks ∧
    ∀ T, asciiRows T → ∀ sched₁ sched₂ res₁ res₂,
      performSearchWith T 1 testBooks (str "TEST") sched₁ = some res₁ →
      performSearchWith T 100 testBooks (str "TEST") sched₂ = some res₂ →
        res₁.Perm testBooks ∧ res₁.Perm res₂ ∧ ∀ r, r ∈ res₁ ↔ r ∈ res₂ := by
  refine ⟨by decide, by decide, by decide, ?_⟩
  intro T hT sched₁ sched₂ res₁ res₂ hr₁ hr₂
  have h := (worker_count_invariance T testBooks (str "TEST") 1 100 (by decide) (by decide)).2
    sched₁ sched₂ res₁ res₂ hr₁ hr₂
  have hq : isASCII (str "TEST") := isASCII_of_all (by decide)
  have hf : sequentialSearch T testBooks (str "TEST") = testBooks := by
    rw [sequentialSearch_of_asciiRows hT hq testBooks_ascii]
    decide
  rw [hf] at h
  exact h

/-- C7, empty query: `performSearch("")` returns under some schedule, every
record matches the empty query, and every result is a permutation of the
snapshot: all of it, each record once. -/
theorem performSearch_empty_query (T : CaseTables) (books : List Book) :
    (∃ res, PerformSearchReturns T books [] res) ∧
    (∀ book, bookMatches T (stringsToLower T []) book = true) ∧
    ∀ res, PerformSearchReturns T books [] res → res.Perm books := by
  have hall : ∀ book, bookMatches T (stringsToLower T []) book = true := by
    intro book
    simp [bookMatches, stringsToLower, stringsContains_nil]
  refine ⟨performSearch_returns T books [], hall, ?_⟩
  rintro res ⟨sched, h⟩
  have hp := performSearch_perm h
  have hf : sequentialSearch T books [] = books := by
    simp only [sequentialSearch]
    exact List.filter_eq_self.mpr (fun b _ => hall b)
  rw [hf] at hp
  exact hp

/-- C7 on the sample data: under `sampleTables` the empty query returns both
records, and for all case tables every result of the empty query is a
permutation of the two records. -/
theorem performSearch_empty_query_witness :
    performSearch sampleTables testBooks [] (inOrder true true) = some testBooks ∧
    ∀ T, ∀ res, PerformSearchReturns T testBooks [] res → res.Perm testBooks :=
  ⟨by decide, fun T => (performSearch_empty_query T testBooks).2.2⟩

/-! ## Case folding -/

theorem bookMatches_congr (T : CaseTables) (query : Str) (b₁ b₂ : Book)
    (ht : stringsToLower T b₁.Title = stringsToLower T b₂.Title)
    (hd : stringsToLower T b₁.Description = stringsToLower T b₂.Description) :
    bookMatches T query b₁ = bookMatches T query b₂ := by
  simp only [bookMatches, ht, hd]

theorem sequentialSearch_congr (T : CaseTables) (books : List Book) (q₁ q₂ : Str)
    (h : stringsToLower T q₁ = stringsToLower T q₂) :
    sequentialSearch T books q₁ = sequentialSearch T books q₂ := by
  simp only [sequentialSearch, h]

theorem stringsToLower_map_eq_iff (T : CaseTables) (f : Nat → Nat) (q : Str) :
    stringsToLower T (q.map f) = stringsToLower T q ↔
      ∀ r ∈ q, T.toLower (f r) = T.toLower r := by
  simp only [stringsToLower, List.map_map]
  exact List.map_inj_left

/-- Two queries of the same length return the same set over every snapshot
exactly when their lower-cased forms are equal. -/
theorem sameResults_iff (T : CaseTables) (q₁ q₂ : Str) (hlen : q₁.length = q₂.length) :
    SameResults T q₁ q₂ ↔ stringsToLower T q₁ = stringsToLower T q₂ := by
  constructor
  · intro h
    obtain ⟨res₁, hr₁⟩ := performSearch_returns T [titledBook q₁] q₁
    obtain ⟨res₂, hr₂⟩ := performSearch_returns T [titledBook q₁] q₂
    have hmem := h [titledBook q₁] res₁ res₂ hr₁ hr₂ (titledBook q₁)
    obtain ⟨sched₁, hs₁⟩ := hr₁
    obtain ⟨sched₂, hs₂⟩ := hr₂
    rw [(performSearch_perm hs₁).mem_iff, (performSearch_perm hs₂).mem_iff,
      mem_sequentialSearch, mem_sequentialSearch] at hmem
    have h₁ : stringsToLower T q₂ <:+: stringsToLower T (titledBook q₁).Title ∨
        stringsToLower T q₂ <:+: stringsToLower T (titledBook q₁).Description :=
      (hmem.mp ⟨List.mem_singleton_self _, Or.inl (List.infix_refl _)⟩).2
    have hl : (stringsToLower T q₂).length = (stringsToLower T q₁).length := by
      simp [stringsToLower, hlen]
    rcases h₁ with h₁ | h₁
    · exact (h₁.sublist.eq_of_length hl).symm
    · have h₂ : stringsToLower T q₂ = [] := by
        simpa [titledBook, stringsToLower] using h₁
      have h₃ : stringsToLower T q₁ = [] := by
        rw [h₂] at hl
        exact List.length_eq_zero.mp hl.symm
      rw [h₂, h₃]
  · intro h books res₁ res₂ hr₁ hr₂ r
    obtain ⟨sched₁, hs₁⟩ := hr₁
    obtain ⟨sched₂, hs₂⟩ := hr₂
    rw [(performSearch_perm hs₁).mem_iff, (performSearch_perm hs₂).mem_iff,
      sequentialSearch_congr T books q₁ q₂ h]

/-- C6 as stated fails. For all case tables in which the upper case of the rune
U+017F is `S`, the lower case of `S` is `s` and U+017F is its own lower case
(Go's tables are such), the query U+017F finds the record titled U+017F under
every schedule, the upper-cased query finds it under no schedule, and the
record no longer matches once its title is upper-cased; the runs under
`sampleTables` show both searches returning. -/
theorem case_insensitivity_counterexample :
    longSRows sampleTables ∧
    performSearch sampleTables [longSBook] [0x17F] (oneRecord true) = some [longSBook] ∧
    performSearch sampleTables [longSBook] (stringsToUpper sampleTables [0x17F])
      (oneRecord false) = some [] ∧
    ∀ T, longSRows T →
      stringsToUpper T [0x17F] = str "S" ∧
      (∀ res, PerformSearchReturns T [longSBook] [0x17F] res → longSBook ∈ res) ∧
      (∀ res, PerformSearchReturns T [longSBook] (stringsToUpper T [0x17F]) res →
        longSBook ∉ res) ∧
      ¬ SameResults T (stringsToUpper T [0x17F]) [0x17F] ∧
      bookMatches T (stringsToLower T [0x17F]) longSBook = true ∧
      bookMatches T (stringsToLower T [0x17F])
        { longSBook with Title := stringsToUpper T longSBook.Title } = false := by
  refine ⟨sampleTables_longSRows, by decide, by decide, ?_⟩
  intro T hT
  obtain ⟨h₁, h₂, h₃⟩ := hT
  have hup : stringsToUpper T [0x17F] = str "S" := by
    simp only [stringsToUpper, List.map_cons, List.map_nil, h₁]
    decide
  have hyes : bookMatches T (stringsToLower T [0x17F]) longSBook = true := by
    simp only [bookMatches, stringsToLower, longSBook, List.map_cons, List.map_nil, h₃]
    decide
  have hno : bookMatches T (stringsToLower T (stringsToUpper T [0x17F])) longSBook = false := by
    simp only [bookMatches, stringsToLower, stringsToUpper, longSBook, List.map_cons,
      List.map_nil, h₁, h₂, h₃]
    decide
  have hin : ∀ res, PerformSearchReturns T [longSBook] [0x17F] res → longSBook ∈ res := by
    rintro res ⟨sched, h⟩
    rw [(performSearch_perm h).mem_iff]
    simp [sequentialSearch, hyes]
  have hout : ∀ res, PerformSearchReturns T [longSBook] (stringsToUpper T [0x17F]) res →
      longSBook ∉ res := by
    rintro res ⟨sched, h⟩
    rw [(performSearch_perm h).mem_iff]
    simp [sequentialSearch, hno]
  refine ⟨hup, hin, hout, ?_, hyes, ?_⟩
  · intro hsame
    obtain ⟨res₁, hr₁⟩ := performSearch_returns T [longSBook] (stringsToUpper T [0x17F])
    obtain ⟨res₂, hr₂⟩ := performSearch_returns T [longSBook] [0x17F]
    exact hout res₁ hr₁ ((hsame [longSBook] res₁ res₂ hr₁ hr₂ longSBook).mpr (hin res₂ hr₂))
  · simp only [bookMatches, stringsToLower, stringsToUpper, longSBook, List.map_cons,
      List.map_nil, h₁, h₂, h₃]
    decide

/-- C6, amended. For all case tables: with the ASCII rows, `performSearch("BOOK")`
and `performSearch("book")` return the same set; `performSearch(strings.ToLower(q))`
returns the same set as `performSearch(q)` over every snapshot exactly when
`unicode.ToLower` fixes the lower case of every rune of `q`, and
`performSearch(strings.ToUpper(q))` does exactly when the lower case of the
upper case of every rune of `q` is its lower case; with the ASCII rows both
hold for every ASCII-only `q`; and a record matches the same queries after its
title and description are replaced by strings with the same lower-cased
form. -/
theorem performSearch_case_insensitive (T : CaseTables) (query : Str) :
    (asciiRows T → SameResults T (str "BOOK") (str "book")) ∧
    (SameResults T (stringsToLower T query) query ↔
      ∀ r ∈ query, T.toLower (T.toLower r) = T.toLower r) ∧
    (SameResults T (stringsToUpper T query) query ↔
      ∀ r ∈ query, T.toLower (T.toUpper r) = T.toLower r) ∧
    (asciiRows T → isASCII query →
      SameResults T (stringsToLower T query) query ∧
      SameResults T (stringsToUpper T query) query) ∧
    ∀ (book : Book) (title description : Str),
      stringsToLower T title = stringsToLower T book.Title →
      stringsToLower T description = stringsToLower T book.Description →
      bookMatches T (stringsToLower T query)
          { book with Title := title, Description := description } =
        bookMatches T (stringsToLower T query) book := by
  have hlow : SameResults T (stringsToLower T query) query ↔
      ∀ r ∈ query, T.toLower (T.toLower r) = T.toLower r := by
    rw [sameResults_iff T _ _ (by simp [stringsToLower])]
    exact stringsToLower_map_eq_iff T T.toLower query
  have hupp : SameResults T (stringsToUpper T query) query ↔
      ∀ r ∈ query, T.toLower (T.toUpper r) = T.toLower r := by
    rw [sameResults_iff T _ _ (by simp [stringsToUpper])]
    exact stringsToLower_map_eq_iff T T.toUpper query
  refine ⟨?_, hlow, hupp, ?_, ?_⟩
  · intro hT
    rw [sameResults_iff T _ _ (by decide)]
    have hB : isASCII (str "BOOK") := by
      intro r hr
      revert r
      decide
    have hb : isASCII (str "book") := by
      intro r hr
      revert r
      decide
    rw [stringsToLower_of_asciiRows hT hB, stringsToLower_of_asciiRows hT hb]
    decide
  · intro hT hq
    constructor
    · rw [sameResults_iff T _ _ (by simp [stringsToLower])]
      exact stringsToLower_idem_ascii hT hq
    · rw [sameResults_iff T _ _ (by simp [stringsToUpper])]
      exact stringsToLower_toUpper_ascii hT hq
  · intro book title description ht hd
    exact bookMatches_congr T _ _ _ ht hd

/-- C6 on the sample data, for all case tables with the ASCII rows: the query
"Test Book 1", its lower case and its upper case return the same set, and the
first record of the test data still matches after its title and description
are upper-cased. Under `sampleTables` the three queries return the first
record under one and the same schedule. -/
theorem performSearch_case_insensitive_witness :
    isASCII (str "Test Book 1") ∧
    performSearch sampleTables testBooks (str "Test Book 1") (inOrder true false) =
      some [testBook1] ∧
    performSearch sampleTables testBooks (stringsToUpper sampleTables (str "Test Book 1"))
      (inOrder true false) = some [testBook1] ∧
    performSearch sampleTables testBooks (stringsToLower sampleTables (str "Test Book 1"))
      (inOrder true false) = some [testBook1] ∧
    ∀ T, asciiRows T →
      SameResults T (str "BOOK") (str "book") ∧
      SameResults T (stringsToLower T (str "Test Book 1")) (str "Test Book 1") ∧
      SameResults T (stringsToUpper T (str "Test Book 1")) (str "Test Book 1") ∧
      bookMatches T (stringsToLower T (str "Test Book 1"))
          { testBook1 with Title := stringsToUpper T testBook1.Title,
                           Description := stringsToUpper T testBook1.Description } =
        bookMatches T (stringsToLower T (str "Test Book 1")) testBook1 := by
  have hq : isASCII (str "Test Book 1") := by
    intro r hr
    revert r
    decide
  have ht : isASCII testBook1.Title := hq
  have hd : isASCII testBook1.Description := by
    intro r hr
    revert r
    decide
  refine ⟨hq, by decide, by decide, by decide, ?_⟩
  intro T hT
  have h := performSearch_case_insensitive T (str "Test Book 1")
  exact ⟨h.1 hT, (h.2.2.2.1 hT hq).1, (h.2.2.2.1 hT hq).2,
    h.2.2.2.2 testBook1 _ _ (stringsToLower_toUpper_ascii hT ht)
      (stringsToLower_toUpper_ascii hT hd)⟩

/-! ## The handlers -/

/-- C8, validation of the query parameter: when `q` is missing or empty,
`searchBooks` answers 400 with the message "query parameter 'q' is required"
whatever the schedule (the search is not run); when `q` is not empty, it has an
answer under some schedule and every answer is 200 with the result of
`performSearch(q)`, a permutation of the matching records, hence the empty list
when nothing matches; so an answer has status 400 exactly when `q` is missing
or empty. -/
theorem searchBooks_validates_query (T : CaseTables) (books : List Book) (q : Option Str) :
    ((q = none ∨ q = some []) → ∀ sched, searchBooks T books q sched =
      some { status := 400, body := Body.message (str "query parameter 'q' is required") }) ∧
    (¬ (q = none ∨ q = some []) →
      (∃ sched resp, searchBooks T books q sched = some resp) ∧
      ∀ sched resp, searchBooks T books q sched = some resp →
        ∃ res, resp = { status := 200, body := Body.books res } ∧
          performSearch T books (ginQuery q) sched = some res ∧
          res.Perm (sequentialSearch T books (ginQuery q)) ∧
          (sequentialSearch T books (ginQuery q) = [] → res = [])) ∧
    ∀ sched resp, searchBooks T books q sched = some resp →
      (resp.status = 400 ↔ (q = none ∨ q = some [])) := by
  have hq : (q = none ∨ q = some []) ↔ ginQuery q = [] := by
    cases q with
    | none => simp [ginQuery]
    | some v => simp [ginQuery]
  have h200 : ginQuery q ≠ [] → ∀ sched resp, searchBooks T books q sched = some resp →
      ∃ res, resp = { status := 200, body := Body.books res } ∧
        performSearch T books (ginQuery q) sched = some res ∧
        res.Perm (sequentialSearch T books (ginQuery q)) ∧
        (sequentialSearch T books (ginQuery q) = [] → res = []) := by
    intro hne sched resp h
    simp only [searchBooks, hne, if_false] at h
    split at h
    · rename_i res hres
      cases h
      have hp := performSearch_perm hres
      refine ⟨res, rfl, hres, hp, ?_⟩
      intro hnil
      rw [hnil] at hp
      exact hp.eq_nil
    · cases h
  refine ⟨?_, ?_, ?_⟩
  · intro h sched
    simp [searchBooks, hq.mp h]
  · intro h
    have hne : ginQuery q ≠ [] := fun h' => h (hq.mpr h')
    refine ⟨?_, h200 hne⟩
    obtain ⟨res, sched, hres⟩ := performSearch_returns T books (ginQuery q)
    exact ⟨sched, { status := 200, body := Body.books res },
      by simp only [searchBooks, hne, if_false, hres]⟩
  · intro sched resp h
    constructor
    · intro hst
      by_contra hn
      have hne : ginQuery q ≠ [] := fun h' => hn (hq.mpr h')
      obtain ⟨res, rfl, -⟩ := h200 hne sched resp h
      simp at hst
    · intro hq'
      simp only [searchBooks, hq.mp hq', if_true, Option.some.injEq] at h
      rw [← h]

/-- C8 on the sample data, for all case tables: a missing and an empty `q` are
answered with 400 under the empty schedule; with the ASCII rows every answer
to the query "nope" is 200 with an empty list, and under `sampleTables` there
is such an answer. -/
theorem searchBooks_validates_query_witness :
    searchBooks sampleTables testBooks (some (str "nope")) (inOrder false false) =
      some { status := 200, body := Body.books [] } ∧
    ∀ T,
      searchBooks T testBooks none [] =
        some { status := 400, body := Body.message (str "query parameter 'q' is required") } ∧
      searchBooks T testBooks (some []) [] =
        some { status := 400, body := Body.message (str "query parameter 'q' is required") } ∧
      (asciiRows T → ∀ sched resp,
        searchBooks T testBooks (some (str "nope")) sched = some resp →
          resp = { status := 200, body := Body.books [] }) := by
  refine ⟨by decide, ?_⟩
  intro T
  have h := searchBooks_validates_query T testBooks
  refine ⟨(h none).1 (Or.inl rfl) [], (h (some [])).1 (Or.inr rfl) [], ?_⟩
  intro hT sched resp hr
  obtain ⟨res, hresp, -, -, hnil⟩ := ((h (some (str "nope"))).2.1 (by decide)).2 sched resp hr
  have hq : isASCII (str "nope") := isASCII_of_all (by decide)
  have hf : sequentialSearch T testBooks (ginQuery (some (str "nope"))) = [] := by
    have : ginQuery (some (str "nope")) = str "nope" := rfl
    rw [this, sequentialSearch_of_asciiRows hT hq testBooks_ascii]
    decide
  rw [hresp, hnil hf]

theorem wrapInt_of_inRange (x : Int) (h₁ : -2 ^ 63 ≤ x) (h₂ : x < 2 ^ 63) : wrapInt x = x := by
  unfold wrapInt
  rw [Int.emod_eq_of_lt (by omega) (by omega)]
  omega

theorem parsePagination_ok {limitParam offsetParam : Option Str} {limit offset : Int}
    (h : parsePagination limitParam offsetParam = .ok (limit, offset)) :
    1 ≤ limit ∧ 0 ≤ offset := by
  unfold parsePagination at h
  simp only at h
  split at h
  · cases h
  · split at h
    · cases h
    · split at h
      · cases h
      · split at h
        · cases h
        · simp only [Except.ok.injEq, Prod.mk.injEq] at h
          obtain ⟨rfl, rfl⟩ := h
          omega

/-- Without overflow of `offset + limit` the slice bounds of `getBooks` are
valid. -/
theorem pageBounds_valid_of_no_overflow (len : Nat) (limit offset : Int) (hl : 1 ≤ limit)
    (ho : 0 ≤ offset) (hno : offset + limit < 2 ^ 63) :
    0 ≤ (pageBounds len limit offset).1 ∧
    (pageBounds len limit offset).1 ≤ (pageBounds len limit offset).2 ∧
    (pageBounds len limit offset).2 ≤ (len : Int) := by
  simp only [pageBounds, wrapInt_of_inRange (offset + limit) (by omega) hno]
  split_ifs <;> omega

/-- Without overflow of `offset + limit` the handler `getBooks` answers 200
with the records at the positions `offset` up to, not including,
`min (offset + limit) (len books)`. -/
theorem getBooks_page_of_no_overflow (books : List Book) (limitParam offsetParam : Option Str)
    (limit offset : Int) (h : parsePagination limitParam offsetParam = .ok (limit, offset))
    (hno : offset + limit < 2 ^ 63) :
    getBooks books limitParam offsetParam =
      some { status := 200, body := Body.books ((books.drop offset.toNat).take limit.toNat) } := by
  obtain ⟨hl, ho⟩ := parsePagination_ok h
  obtain ⟨h₁, h₂, h₃⟩ := pageBounds_valid_of_no_overflow books.length limit offset hl ho hno
  simp only [getBooks, h, sliceBooks, h₁, h₂, h₃, and_self, if_true]
  congr 3
  simp only [pageBounds, wrapInt_of_inRange (offset + limit) (by omega) hno]
  apply List.ext_getElem?
  intro k
  simp only [List.getElem?_drop, List.getElem?_take]
  split_ifs <;> first | rfl | omega | (symm; simp only [List.getElem?_eq_none_iff]; omega)

/-- C9 fails on the code: `limit=1` and `offset=9223372036854775807` are
accepted by `parsePagination`, `offset >= len(books)` calls for status 200 with
an empty list, and `getBooks` panics instead. With the default parameters the
handler answers 200 with both records of the test data, as `TestGetBooks`
expects. -/
theorem getBooks_overflow_panics :
    parsePagination (some (str "1")) (some (str "9223372036854775807")) =
      .ok (1, 9223372036854775807) ∧
    getBooks testBooks (some (str "1")) (some (str "9223372036854775807")) = none ∧
    getBooks testBooks none none = some { status := 200, body := Body.books testBooks } := by
  decide

/-- C10 fails on the code: for the accepted pair `limit = 1`,
`offset = 9223372036854775807` and two books, `offset + limit` wraps to
`-9223372036854775808`, so `start = 2` and `end = -9223372036854775808`:
`start <= end` does not hold and the slice expression panics. -/
theorem pageBounds_overflow :
    pageBounds 2 1 9223372036854775807 = (2, -9223372036854775808) ∧
    ¬ ((pageBounds 2 1 9223372036854775807).1 ≤ (pageBounds 2 1 9223372036854775807).2) ∧
    sliceBooks testBooks (pageBounds 2 1 9223372036854775807).1
      (pageBounds 2 1 9223372036854775807).2 = none := by
  decide

end Bookstore
